import Mathlib

/-!
Shallow embedding of the chronoquant repository:

* `src/database_codes/data_sync.py` — `sync_data`: incremental candle
  synchronization (window computation, normalization, insert-or-ignore merge).
* `src/prep_target.py` — `calculate_target_percentiles`: rolling-maximum ratio
  and its p50/p75/p90 percentiles.

Machine floats of the source are modelled with exact rationals extended with
IEEE special values (`PVal`) where division can produce infinities or NaN;
string-encoded exchange numerics are parsed with a fallible decimal parser
standing for `pd.to_numeric(errors="coerce")`, whose failure (NaN, stored as
NULL by the sqlite3 driver) is `none`.
-/

namespace ChronoQuant

/-- A raw kline row as returned by `client.get_historical_klines`:
open-time in epoch milliseconds plus string-encoded numeric fields.
(The six trailing fields of a Binance kline are carried but dropped by
normalization, exactly as the source's column selection drops them.) -/
structure RawRow where
  open_time : Nat
  open_ : String
  high : String
  low : String
  close : String
  volume : String
  close_time : Nat := 0
  quote_asset_volume : String := ""
  number_of_trades : String := ""
  taker_buy_base : String := ""
  taker_buy_quote : String := ""
  ignore_ : String := ""
deriving Repr, DecidableEq

/-- A stored candle row of the `bchusdt_1m` table, after normalization:
`open_time_ms` is the key, `open_time` the derived display string, the
numeric fields are NULL (`none`) on parse failure. -/
structure Candle where
  open_time_ms : Nat
  open_time : String
  open_ : Option ℚ
  high : Option ℚ
  low : Option ℚ
  close : Option ℚ
  volume : Option ℚ
deriving Repr, DecidableEq

/-! ### Numeric coercion (`pd.to_numeric(..., errors="coerce")`) -/

/-- Accumulate a decimal digit string into a natural number. -/
def parseDigitsAux : List Char → Nat → Option Nat
  | [], acc => some acc
  | c :: cs, acc =>
    if c.isDigit then parseDigitsAux cs (acc * 10 + (c.toNat - 48)) else none

/-- Fallible decimal parser standing for pandas' numeric coercion: an optional
sign, an integer part and an optional fractional part; anything else fails
(`none`, i.e. NaN/NULL). -/
def toNumeric (s : String) : Option ℚ :=
  let cs := s.toList
  let signed : Bool × List Char :=
    match cs with
    | '-' :: rest => (true, rest)
    | _ => (false, cs)
  let intPart := signed.2.takeWhile Char.isDigit
  let rest := signed.2.dropWhile Char.isDigit
  let val : Option ℚ :=
    match rest with
    | [] =>
      if intPart.isEmpty then none
      else (parseDigitsAux intPart 0).map (fun n => (n : ℚ))
    | '.' :: frac =>
      if frac.all Char.isDigit && (!intPart.isEmpty || !frac.isEmpty) then
        match parseDigitsAux intPart 0, parseDigitsAux frac 0 with
        | some i, some f => some ((i : ℚ) + (f : ℚ) / ((10 : ℚ) ^ frac.length))
        | _, _ => none
      else none
    | _ => none
  val.map (fun v => if signed.1 then -v else v)

/-! ### Display-time derivation
`pd.to_datetime(ms, unit="ms", utc=True) + Timedelta(hours=2)`, floored to the
minute and formatted `"%Y-%m-%d %H:%M"`. Civil-date computation uses the
standard days-to-civil algorithm for days since 1970-01-01. -/

/-- Zero-pad a natural number to width 2 (strftime field padding). -/
def pad2 (n : Nat) : String :=
  if n < 10 then "0" ++ toString n else toString n

/-- Zero-pad a natural number to width 4 (strftime `%Y`). -/
def pad4 (n : Nat) : String :=
  if n < 10 then "000" ++ toString n
  else if n < 100 then "00" ++ toString n
  else if n < 1000 then "0" ++ toString n
  else toString n

/-- Convert a count of days since 1970-01-01 to a civil `(year, month, day)`
triple (proleptic Gregorian calendar). -/
def civilFromDays (z : Nat) : Nat × Nat × Nat :=
  let z' := z + 719468
  let era := z' / 146097
  let doe := z' % 146097
  let yoe := (doe - doe / 1460 + doe / 36524 - doe / 146096) / 365
  let y := yoe + era * 400
  let doy := doe - (365 * yoe + yoe / 4 - yoe / 100)
  let mp := (5 * doy + 2) / 153
  let d := doy - (153 * mp + 2) / 5 + 1
  let m := if mp < 10 then mp + 3 else mp - 9
  if m ≤ 2 then (y + 1, m, d) else (y, m, d)

/-- Render a count of minutes since the epoch as `YYYY-MM-DD HH:MM`. -/
def renderMinutes (mins : Nat) : String :=
  let days := mins / 1440
  let ymd := civilFromDays days
  let hh := (mins / 60) % 24
  let mm := mins % 60
  pad4 ymd.1 ++ "-" ++ pad2 ymd.2.1 ++ "-" ++ pad2 ymd.2.2 ++ " " ++
    pad2 hh ++ ":" ++ pad2 mm

/-- The source's display-string pipeline for one timestamp: shift the UTC
instant by `Timedelta(hours=2)`, `.dt.floor("min")` (floor the instant to a
60 000 ms multiple), then `strftime("%Y-%m-%d %H:%M")`. -/
def displayString (ms : Nat) : String :=
  let localMs := ms + 7200000
  let flooredMs := 60000 * (localMs / 60000)
  renderMinutes (flooredMs / 60000)

/-- Normalize one raw kline row into a `Candle`: keep the raw open time as
`open_time_ms`, derive the display string, coerce the five numeric columns,
drop the rest. -/
def normalizeRow (r : RawRow) : Candle :=
  { open_time_ms := r.open_time
    open_time := displayString r.open_time
    open_ := toNumeric r.open_
    high := toNumeric r.high
    low := toNumeric r.low
    close := toNumeric r.close
    volume := toNumeric r.volume }

/-! ### The store
The table rows in physical order. The `INSERT OR IGNORE` statement of the
source relies on the table's key.

Modelled from the spec: the table's DDL is not under `src/`; per §3 and §6 of
the specification the store keys candles uniquely on `open_time_ms` and
`insert_if_absent` leaves an existing key untouched. -/

abbrev Store := List Candle

/-- The stored keys, in row order. -/
def keysOf (s : Store) : List Nat := s.map Candle.open_time_ms

/-- One `INSERT OR IGNORE` of a single row: appended unless its
`open_time_ms` key is already present. -/
def insertOrIgnore (s : Store) (c : Candle) : Store :=
  if s.any (fun c' => c'.open_time_ms == c.open_time_ms) then s else s ++ [c]

/-- `cursor.executemany` of `INSERT OR IGNORE` over a batch of rows. -/
def mergeRows (s : Store) (rows : List Candle) : Store :=
  rows.foldl insertOrIgnore s

/-- `SELECT MAX(open_time_ms) FROM table`: SQL MAX over the stored rows,
NULL (`none`) on an empty table. -/
def maxKey (s : Store) : Option Nat :=
  s.foldl (fun acc c =>
    match acc with
    | none => some c.open_time_ms
    | some m => some (max m c.open_time_ms)) none

/-! ### The synchronizer -/

/-- 2017-01-01T00:00:00Z in epoch milliseconds, the fallback start of
history (`datetime(2017, 1, 1, tzinfo=timezone.utc).timestamp() * 1000`). -/
def epochFloor : Nat := 1483228800000

/-- `start_ms`: one interval after the last stored candle, or the epoch
floor when the table is empty. -/
def start_ms (s : Store) : Nat :=
  match maxKey s with
  | none => epochFloor
  | some m => m + 60000

/-- `end_ms`: the exchange server time floored to a full minute
(`server_ms - server_ms % 60_000`). -/
def end_ms (serverMs : Nat) : Nat :=
  serverMs - serverMs % 60000

/-- Outcome of one sync run, mirroring the printed summary. -/
inductive SyncResult where
  | noNewData
  | noDataReturned
  | inserted (count : Nat) (minTime maxTime : String)
deriving Repr, DecidableEq

/-- Minimum of a list of display strings (`df["open_time"].min()`). -/
def minString : List String → String
  | [] => ""
  | x :: xs => xs.foldl min x

/-- Maximum of a list of display strings (`df["open_time"].max()`). -/
def maxString : List String → String
  | [] => ""
  | x :: xs => xs.foldl max x

/-- `sync_data`: compute the fetch window from the store and the server
time, fetch raw klines through the exchange collaborator `fetch`, normalize
and merge. Returns the final store and the reported outcome. -/
def sync_data (s : Store) (serverMs : Nat) (fetch : Nat → Nat → List RawRow) :
    Store × SyncResult :=
  let start := start_ms s
  let stop := end_ms serverMs
  if start ≥ stop then (s, .noNewData)
  else
    let raw := fetch start stop
    if raw.isEmpty then (s, .noDataReturned)
    else
      let rows := raw.map normalizeRow
      let times := rows.map Candle.open_time
      (mergeRows s rows, .inserted rows.length (minString times) (maxString times))

/-! ### The feature calculator (`prep_target.py`)
Ratios live in a model of IEEE doubles with exact finite values: finite
rationals plus `+inf`, `-inf` and NaN, which division by zero or by NULL
produces. -/

/-- A pandas float cell: finite, infinite or NaN. -/
inductive PVal where
  | nan
  | negInf
  | posInf
  | fin (q : ℚ)
deriving Repr, DecidableEq

/-- Whether a cell is NaN. -/
def PVal.isNan : PVal → Bool
  | .nan => true
  | _ => false

/-- IEEE comparison used for sorting non-NaN cells:
`-inf` below all finite values, `+inf` above. -/
def PVal.ble : PVal → PVal → Bool
  | .nan, _ => false
  | _, .nan => true
  | .negInf, _ => true
  | _, .negInf => false
  | _, .posInf => true
  | .posInf, _ => false
  | .fin a, .fin b => a ≤ b

/-- IEEE addition on cells (NaN absorbing, `inf + -inf = NaN`). -/
def PVal.add : PVal → PVal → PVal
  | .nan, _ => .nan
  | _, .nan => .nan
  | .posInf, .negInf => .nan
  | .negInf, .posInf => .nan
  | .posInf, _ => .posInf
  | _, .posInf => .posInf
  | .negInf, _ => .negInf
  | _, .negInf => .negInf
  | .fin a, .fin b => .fin (a + b)

/-- IEEE subtraction on cells. -/
def PVal.sub : PVal → PVal → PVal
  | .nan, _ => .nan
  | _, .nan => .nan
  | .posInf, .posInf => .nan
  | .negInf, .negInf => .nan
  | .posInf, _ => .posInf
  | _, .posInf => .negInf
  | .negInf, _ => .negInf
  | _, .negInf => .posInf
  | .fin a, .fin b => .fin (a - b)

/-- IEEE multiplication by a finite rational (`0 * inf = NaN`). -/
def PVal.smul (t : ℚ) : PVal → PVal
  | .nan => .nan
  | .posInf => if t > 0 then .posInf else if t < 0 then .negInf else .nan
  | .negInf => if t > 0 then .negInf else if t < 0 then .posInf else .nan
  | .fin a => .fin (t * a)

/-- IEEE division `rolling_max / close` where either operand may be NaN
(`none`): NaN propagates, a nonzero value over `0.0` is a signed infinity,
`0 / 0` is NaN. -/
def vdiv : Option ℚ → Option ℚ → PVal
  | none, _ => .nan
  | _, none => .nan
  | some m, some c =>
    if c = 0 then
      if 0 < m then .posInf else if m < 0 then .negInf else .nan
    else .fin (m / c)

/-- Max of the non-`none` entries of a window, `none` when all are `none`
(pandas `max` over a window that skips NaN, `min_periods=1`). -/
def maxOfSome (l : List (Option ℚ)) : Option ℚ :=
  l.foldr (fun x acc =>
    match x, acc with
    | none, a => a
    | some q, none => some q
    | some q, some m => some (max q m)) none

/-- `Series.rolling(window=w, min_periods=1).max()`: entry `i` is the max of
the non-NaN values among positions `i-w+1 .. i` (clipped at the start). -/
def rollingMax (w : Nat) (l : List (Option ℚ)) : List (Option ℚ) :=
  (List.range l.length).map (fun i => maxOfSome ((l.take (i + 1)).drop (i + 1 - w)))

/-- `df["ratio"] = df["rolling_max"] / df["close"]`. -/
def ratioList (w : Nat) (closes : List (Option ℚ)) : List PVal :=
  List.zipWith vdiv (rollingMax w closes) closes

/-- Drop the NaN cells, as pandas `quantile` does before interpolating. -/
def dropNan (l : List PVal) : List PVal :=
  l.filter (fun v => !v.isNan)

/-- Insert into a `PVal.ble`-sorted list. -/
def insertSorted (x : PVal) : List PVal → List PVal
  | [] => [x]
  | y :: ys => if x.ble y then x :: y :: ys else y :: insertSorted x ys

/-- Sort cells ascending (insertion sort). -/
def sortVals (l : List PVal) : List PVal :=
  l.foldr insertSorted []

/-- Linear interpolation `a + t * (b - a)` under IEEE arithmetic. -/
def interp (a b : PVal) (t : ℚ) : PVal :=
  a.add (PVal.smul t (b.sub a))

/-- The `q`-quantile of an ascending-sorted NaN-free list, with numpy's
linear interpolation between closest ranks; NaN on an empty list. -/
def quantileSorted (s : List PVal) (q : ℚ) : PVal :=
  match s with
  | [] => .nan
  | _ =>
    let h : ℚ := q * ((s.length : ℚ) - 1)
    let lo : Nat := (⌊h⌋).toNat
    let frac : ℚ := h - (⌊h⌋ : ℚ)
    let hi : Nat := if frac = 0 then lo else lo + 1
    interp (s.getD lo .nan) (s.getD hi .nan) frac

/-- One percentile of a raw ratio column: drop NaN, sort, interpolate
(pandas `Series.describe` / `quantile` semantics). -/
def percentileOf (l : List PVal) (q : ℚ) : PVal :=
  quantileSorted (sortVals (dropNan l)) q

/-- The single-row result frame: the 50th/75th/90th ratio percentiles. -/
structure PRow where
  p50 : PVal
  p75 : PVal
  p90 : PVal
deriving Repr, DecidableEq

/-- The only failure of `calculate_target_percentiles`:
`ValueError("No data found for the given time range.")`. -/
inductive CalcError where
  | emptyRange
deriving Repr, DecidableEq

/-- Lexicographic comparison of character lists by code point. -/
def charListLe : List Char → List Char → Bool
  | [], _ => true
  | _ :: _, [] => false
  | a :: as, b :: bs =>
    if a < b then true else if b < a then false else charListLe as bs

/-- SQLite's TEXT ordering used by `BETWEEN`: byte-lexicographic memcmp,
which on the ASCII display strings coincides with code-point order. -/
def strLeB (a b : String) : Bool :=
  charListLe a.toList b.toList

/-- `SELECT open_time, close FROM table WHERE open_time BETWEEN ? AND ?`:
filter the table rows in physical order (the query has no ORDER BY) by the
inclusive display-string range, projecting `(open_time, close)`. -/
def selectRange (tbl : Store) (fromT toT : String) : List (String × Option ℚ) :=
  (tbl.filter (fun c => strLeB fromT c.open_time && strLeB c.open_time toT)).map
    (fun c => (c.open_time, c.close))

/-- `calculate_target_percentiles`: query the range, fail on an empty
frame, else compute the rolling-max ratio column and report its
p50/p75/p90. -/
def calculate_target_percentiles (tbl : Store) (fromT toT : String)
    (window : Nat := 240) : Except CalcError PRow :=
  let df := selectRange tbl fromT toT
  if df.isEmpty then .error .emptyRange
  else
    let ratios := ratioList window (df.map Prod.snd)
    .ok { p50 := percentileOf ratios (1/2)
          p75 := percentileOf ratios (3/4)
          p90 := percentileOf ratios (9/10) }

/-! ## Lemmas about the store and the sync window -/

theorem foldl_max_spec (l : List Candle) (a : Nat) :
    a ≤ l.foldl (fun x c => max x c.open_time_ms) a ∧
    (l.foldl (fun x c => max x c.open_time_ms) a = a ∨
      l.foldl (fun x c => max x c.open_time_ms) a ∈ keysOf l) ∧
    ∀ k ∈ keysOf l, k ≤ l.foldl (fun x c => max x c.open_time_ms) a := by
  induction l generalizing a with
  | nil => simp [keysOf]
  | cons c cs ih =>
    obtain ⟨h1, h2, h3⟩ := ih (max a c.open_time_ms)
    refine ⟨le_trans (le_max_left _ _) h1, ?_, ?_⟩
    · rcases h2 with h2 | h2
      · rcases max_choice a c.open_time_ms with hm | hm
        · refine Or.inl ?_
          rw [List.foldl_cons]
          exact h2.trans hm
        · refine Or.inr ?_
          simp only [keysOf, List.map_cons, List.mem_cons, List.foldl_cons]
          exact Or.inl (by rw [h2, hm])
      · refine Or.inr ?_
        simp only [keysOf, List.map_cons, List.mem_cons]
        exact Or.inr h2
    · intro k hk
      simp only [keysOf, List.map_cons, List.mem_cons] at hk
      rcases hk with hk | hk
      · subst hk
        exact le_trans (le_max_right _ _) h1
      · exact h3 k hk

theorem maxKey_cons (c : Candle) (cs : List Candle) :
    maxKey (c :: cs) =
      some (cs.foldl (fun x c' => max x c'.open_time_ms) c.open_time_ms) := by
  show (cs.foldl _ (some c.open_time_ms)) = _
  induction cs generalizing c with
  | nil => rfl
  | cons d ds ih => exact ih ⟨max c.open_time_ms d.open_time_ms, "", none, none, none, none, none⟩

/-- C2: `start_ms` is the epoch floor 2017-01-01T00:00:00Z (in ms) on an
empty series, and otherwise the maximum stored `open_time_ms` plus the
60 000 ms interval length. -/
theorem start_ms_window (s : Store) :
    epochFloor = 1483228800000 ∧
    (s = [] → start_ms s = 1483228800000) ∧
    (s ≠ [] → ∃ m, maxKey s = some m ∧ m ∈ keysOf s ∧
      (∀ k ∈ keysOf s, k ≤ m) ∧ start_ms s = m + 60000) := by
  refine ⟨rfl, fun h => by simp [h, start_ms, maxKey, epochFloor], fun h => ?_⟩
  match s, h with
  | c :: cs, _ =>
    obtain ⟨h1, h2, h3⟩ := foldl_max_spec cs c.open_time_ms
    refine ⟨cs.foldl (fun x c' => max x c'.open_time_ms) c.open_time_ms,
      maxKey_cons c cs, ?_, ?_, ?_⟩
    · rcases h2 with h2 | h2
      · simp [keysOf, h2]
      · simp only [keysOf, List.map_cons, List.mem_cons]
        exact Or.inr h2
    · intro k hk
      simp only [keysOf, List.map_cons, List.mem_cons] at hk
      rcases hk with hk | hk
      · exact hk ▸ h1
      · exact h3 k hk
    · simp [start_ms, maxKey_cons]

/-- C2 witness: a singleton store and the empty store, evaluated. -/
theorem start_ms_window_witness :
    start_ms [] = 1483228800000 ∧
    start_ms [⟨1700000040000, "2023-11-15 00:14", none, none, none, none, none⟩] =
      1700000100000 := by
  constructor
  · exact (start_ms_window []).2.1 rfl
  · obtain ⟨m, hm, _, _, hs⟩ :=
      (start_ms_window [⟨1700000040000, "2023-11-15 00:14", none, none, none, none, none⟩]).2.2
        (by simp)
    have : (1700000040000 : Nat) = m := by
      simpa [maxKey] using hm
    rw [hs, ← this]

/-- C3: `end_ms` is the server time floored to the nearest 60 000 ms
boundary, and when `start_ms ≥ end_ms` the run returns the
"nothing to do" result, leaves the store untouched, and never consults the
historical-candle fetcher (its outcome is the same for every fetcher). -/
theorem sync_noop_when_caught_up (s : Store) (t : Nat) :
    end_ms t = 60000 * (t / 60000) ∧
    (start_ms s ≥ end_ms t →
      ∀ f g : Nat → Nat → List RawRow,
        sync_data s t f = (s, .noNewData) ∧ sync_data s t f = sync_data s t g) := by
  have hfloor : end_ms t = 60000 * (t / 60000) := by
    have := Nat.div_add_mod t 60000
    unfold end_ms
    omega
  refine ⟨hfloor, fun h f g => ?_⟩
  have : sync_data s t f = (s, .noNewData) := by
    unfold sync_data
    rw [if_pos h]
  have hg : sync_data s t g = (s, .noNewData) := by
    unfold sync_data
    rw [if_pos h]
  exact ⟨this, by rw [this, hg]⟩

/-- C3 witness: a store one candle past a server time inside that same
minute triggers the no-op on two distinct fetchers. -/
theorem sync_noop_when_caught_up_witness :
    sync_data [⟨1700000040000, "2023-11-15 00:14", none, none, none, none, none⟩]
        1700000099999 (fun _ _ => []) =
      ([⟨1700000040000, "2023-11-15 00:14", none, none, none, none, none⟩], .noNewData) ∧
    sync_data [⟨1700000040000, "2023-11-15 00:14", none, none, none, none, none⟩]
        1700000099999 (fun _ _ => []) =
      sync_data [⟨1700000040000, "2023-11-15 00:14", none, none, none, none, none⟩]
        1700000099999 (fun a b =>
          [{ open_time := a + b, open_ := "x", high := "y", low := "z",
             close := "w", volume := "v" }]) :=
  (sync_noop_when_caught_up _ 1700000099999).2 (by decide) _ _

/-! ## Lemmas about the insert-or-ignore merge -/

theorem any_key_iff (s : Store) (c : Candle) :
    (s.any fun c' => c'.open_time_ms == c.open_time_ms) = true ↔
      c.open_time_ms ∈ keysOf s := by
  simp only [List.any_eq_true, keysOf, List.mem_map, beq_iff_eq]

theorem insertOrIgnore_of_mem (s : Store) (c : Candle)
    (h : c.open_time_ms ∈ keysOf s) : insertOrIgnore s c = s := by
  unfold insertOrIgnore
  rw [if_pos ((any_key_iff s c).2 h)]

theorem mem_keys_insertOrIgnore_left (s : Store) (c : Candle) (k : Nat)
    (h : k ∈ keysOf s) : k ∈ keysOf (insertOrIgnore s c) := by
  unfold insertOrIgnore
  split
  · exact h
  · simp only [keysOf, List.map_append, List.mem_append]
    exact Or.inl h

theorem key_mem_insertOrIgnore (s : Store) (c : Candle) :
    c.open_time_ms ∈ keysOf (insertOrIgnore s c) := by
  unfold insertOrIgnore
  split
  · next h => exact (any_key_iff s c).1 h
  · simp [keysOf]

theorem mem_keys_mergeRows_left (s : Store) (rows : List Candle) (k : Nat)
    (h : k ∈ keysOf s) : k ∈ keysOf (mergeRows s rows) := by
  induction rows generalizing s with
  | nil => exact h
  | cons r rs ih => exact ih _ (mem_keys_insertOrIgnore_left s r k h)

theorem mem_keys_mergeRows_of_mem (s : Store) (rows : List Candle) (c : Candle)
    (h : c ∈ rows) : c.open_time_ms ∈ keysOf (mergeRows s rows) := by
  induction rows generalizing s with
  | nil => cases h
  | cons r rs ih =>
    rcases List.mem_cons.1 h with h | h
    · subst h
      exact mem_keys_mergeRows_left _ rs _ (key_mem_insertOrIgnore s c)
    · exact ih _ h

theorem mergeRows_eq_of_keys_present (s : Store) (rows : List Candle)
    (h : ∀ c ∈ rows, c.open_time_ms ∈ keysOf s) : mergeRows s rows = s := by
  induction rows with
  | nil => rfl
  | cons r rs ih =>
    show mergeRows (insertOrIgnore s r) rs = s
    rw [insertOrIgnore_of_mem s r (h r (List.mem_cons_self r rs))]
    exact ih (fun c hc => h c (List.mem_cons_of_mem r hc))

theorem keys_nodup_insertOrIgnore (s : Store) (c : Candle)
    (h : (keysOf s).Nodup) : (keysOf (insertOrIgnore s c)).Nodup := by
  unfold insertOrIgnore
  split
  · exact h
  · next hany =>
    have hnot : c.open_time_ms ∉ keysOf s := fun hmem =>
      hany ((any_key_iff s c).2 hmem)
    simp only [keysOf, List.map_append, List.map_cons, List.map_nil]
    refine List.Nodup.append h (List.nodup_singleton _) ?_
    intro k hk hk2
    simp only [List.mem_singleton] at hk2
    exact hnot (hk2 ▸ hk)

/-- C1: the merge is idempotent insert-if-absent. Re-inserting an existing
key leaves the store untouched; merging the same batch a second time
changes nothing (hence identical content and row count); distinctness of
`open_time_ms` keys is preserved, so at most one row per key exists. -/
theorem merge_idempotent :
    (∀ (s : Store) (c : Candle), c.open_time_ms ∈ keysOf s →
      insertOrIgnore s c = s) ∧
    (∀ (s : Store) (rows : List Candle),
      mergeRows (mergeRows s rows) rows = mergeRows s rows) ∧
    (∀ (s : Store) (rows : List Candle), (keysOf s).Nodup →
      (keysOf (mergeRows s rows)).Nodup) := by
  refine ⟨insertOrIgnore_of_mem, ?_, ?_⟩
  · intro s rows
    exact mergeRows_eq_of_keys_present _ rows
      (fun c hc => mem_keys_mergeRows_of_mem s rows c hc)
  · intro s rows h
    induction rows generalizing s with
    | nil => exact h
    | cons r rs ih => exact ih _ (keys_nodup_insertOrIgnore s r h)

/-- C1 witness: concrete single-candle evaluations of all three parts. -/
theorem merge_idempotent_witness :
    insertOrIgnore [⟨60000, "1970-01-01 02:01", none, none, none, some 1, none⟩]
        ⟨60000, "x", none, none, none, some 2, none⟩ =
      [⟨60000, "1970-01-01 02:01", none, none, none, some 1, none⟩] ∧
    mergeRows (mergeRows [] [⟨60000, "a", none, none, none, some 1, none⟩])
        [⟨60000, "a", none, none, none, some 1, none⟩] =
      mergeRows [] [⟨60000, "a", none, none, none, some 1, none⟩] ∧
    (keysOf (mergeRows [⟨0, "e", none, none, none, none, none⟩]
        [⟨60000, "a", none, none, none, some 1, none⟩,
         ⟨60000, "b", none, none, none, some 2, none⟩])).Nodup := by
  obtain ⟨h1, h2, h3⟩ := merge_idempotent
  exact ⟨h1 _ _ (by simp [keysOf]), h2 _ _, h3 _ _ (by simp [keysOf])⟩

/-! ## Normalization -/

/-- The display string as the specification words it: add the fixed +2 hour
offset to the UTC instant, truncate to minute precision, and format
`YYYY-MM-DD HH:MM`. -/
def specDisplayString (ms : Nat) : String :=
  renderMinutes ((ms + 2 * 3600000) / 60000)

/-- C4: normalization carries `open_time_ms` through unchanged and derives
the display string exactly as specified: the +2 h-shifted instant truncated
to the minute and rendered `YYYY-MM-DD HH:MM` (pinned on a concrete
instant: 2023-11-14T22:13:20Z displays as `2023-11-15 00:13`). -/
theorem normalize_carries_time (r : RawRow) :
    (normalizeRow r).open_time_ms = r.open_time ∧
    (normalizeRow r).open_time = specDisplayString r.open_time ∧
    displayString 1700000000000 = "2023-11-15 00:13" := by
  refine ⟨rfl, ?_, by decide⟩
  show displayString r.open_time = specDisplayString r.open_time
  have h : ∀ n : Nat, 60000 * n / 60000 = n :=
    fun n => Nat.mul_div_cancel_left n (by norm_num)
  simp only [displayString, specDisplayString, h]

/-- C5: whichever of the five numeric fields — open, high, low, close or
volume — fails parsing is stored as NULL for that field alone: every stored
numeric field is the parse of its own raw string, independent of the other
fields; the row is still inserted (its key reaches the merged store), the
remaining rows of the batch are processed unchanged, and no error is
raised (normalization is total). -/
theorem field_fault_tolerance (pre post : List RawRow) (r : RawRow) (s : Store) :
    ((pre ++ r :: post).map normalizeRow =
      pre.map normalizeRow ++ normalizeRow r :: post.map normalizeRow) ∧
    (normalizeRow r).open_time_ms = r.open_time ∧
    (normalizeRow r).open_ = toNumeric r.open_ ∧
    (normalizeRow r).high = toNumeric r.high ∧
    (normalizeRow r).low = toNumeric r.low ∧
    (normalizeRow r).close = toNumeric r.close ∧
    (normalizeRow r).volume = toNumeric r.volume ∧
    (toNumeric r.open_ = none → (normalizeRow r).open_ = none) ∧
    (toNumeric r.high = none → (normalizeRow r).high = none) ∧
    (toNumeric r.low = none → (normalizeRow r).low = none) ∧
    (toNumeric r.close = none → (normalizeRow r).close = none) ∧
    (toNumeric r.volume = none → (normalizeRow r).volume = none) ∧
    r.open_time ∈ keysOf (mergeRows s ((pre ++ r :: post).map normalizeRow)) := by
  refine ⟨by simp, rfl, rfl, rfl, rfl, rfl, rfl,
    fun h => h, fun h => h, fun h => h, fun h => h, fun h => h, ?_⟩
  have hmem : normalizeRow r ∈ (pre ++ r :: post).map normalizeRow :=
    List.mem_map_of_mem _ (by simp)
  exact mem_keys_mergeRows_of_mem s _ _ hmem

/-- C5 witness: a middle row whose five numeric fields all fail parsing is
still inserted, with every one of its numeric fields NULL, and the clean
rows around it are unaffected. -/
theorem field_fault_tolerance_witness :
    toNumeric "a" = none ∧
    (normalizeRow { open_time := 60000, open_ := "a", high := "b", low := "c"
                    close := "d", volume := "e" }).open_ = none ∧
    (normalizeRow { open_time := 60000, open_ := "a", high := "b", low := "c"
                    close := "d", volume := "e" }).high = none ∧
    (normalizeRow { open_time := 60000, open_ := "a", high := "b", low := "c"
                    close := "d", volume := "e" }).low = none ∧
    (normalizeRow { open_time := 60000, open_ := "a", high := "b", low := "c"
                    close := "d", volume := "e" }).close = none ∧
    (normalizeRow { open_time := 60000, open_ := "a", high := "b", low := "c"
                    close := "d", volume := "e" }).volume = none ∧
    (60000 : Nat) ∈ keysOf (mergeRows []
      ((([{ open_time := 0, open_ := "1", high := "2", low := "0.5"
            close := "3", volume := "4" }] : List RawRow) ++
        ({ open_time := 60000, open_ := "a", high := "b", low := "c"
           close := "d", volume := "e" } : RawRow) ::
        [{ open_time := 120000, open_ := "5", high := "6", low := "7"
           close := "8", volume := "9" }]).map normalizeRow)) := by
  obtain ⟨_, _, _, _, _, _, _, h8, h9, h10, h11, h12, h13⟩ :=
    field_fault_tolerance
      [{ open_time := 0, open_ := "1", high := "2", low := "0.5"
         close := "3", volume := "4" }]
      [{ open_time := 120000, open_ := "5", high := "6", low := "7"
         close := "8", volume := "9" }]
      { open_time := 60000, open_ := "a", high := "b", low := "c"
        close := "d", volume := "e" }
      []
  exact ⟨rfl, h8 rfl, h9 rfl, h10 rfl, h11 rfl, h12 rfl, h13⟩

/-! ## The feature calculator: error behaviour -/

theorem charListLe_iff_not_lex (as : List Char) :
    ∀ bs, charListLe as bs = true ↔ ¬ List.Lex (· < ·) bs as := by
  induction as with
  | nil =>
    intro bs
    simp only [charListLe]
    exact iff_of_true trivial (fun h => by cases h)
  | cons a as ih =>
    intro bs
    cases bs with
    | nil =>
      simp only [charListLe]
      exact iff_of_false (by simp) (fun h => h List.Lex.nil)
    | cons b bs =>
      simp only [charListLe]
      rcases lt_trichotomy a b with hab | hab | hab
      · rw [if_pos hab]
        refine iff_of_true rfl (fun h => ?_)
        cases h with
        | cons h => exact lt_irrefl a hab
        | rel h => exact lt_asymm hab h
      · subst hab
        rw [if_neg (lt_irrefl a), if_neg (lt_irrefl a)]
        rw [ih bs]
        constructor
        · intro h hl
          cases hl with
          | cons h2 => exact h h2
          | rel h2 => exact lt_irrefl a h2
        · exact fun h h2 => h (List.Lex.cons h2)
      · rw [if_neg (lt_asymm hab), if_pos hab]
        exact iff_of_false (by simp) (fun h => h (List.Lex.rel hab))

/-- The executable memcmp comparison agrees with the standard
lexicographic order on strings. -/
theorem strLeB_iff_le (a b : String) : strLeB a b = true ↔ a ≤ b := by
  rw [strLeB, charListLe_iff_not_lex, String.le_iff_toList_le]
  show ¬ b.toList < a.toList ↔ a.toList ≤ b.toList
  exact not_lt

theorem calc_error_iff_empty (tbl : Store) (fromT toT : String) (w : Nat) :
    calculate_target_percentiles tbl fromT toT w = .error .emptyRange ↔
      (selectRange tbl fromT toT).isEmpty = true := by
  simp only [calculate_target_percentiles]
  split
  · next h => simp [h]
  · next h => simp [h]

theorem selectRange_empty_iff (tbl : Store) (fromT toT : String) :
    (selectRange tbl fromT toT).isEmpty = true ↔
      ∀ c ∈ tbl, ¬(fromT ≤ c.open_time ∧ c.open_time ≤ toT) := by
  simp only [selectRange, List.isEmpty_iff, List.map_eq_nil_iff,
    List.filter_eq_nil_iff, Bool.and_eq_true, strLeB_iff_le]

/-- C6: `calculate_target_percentiles` fails with the empty-range error
exactly when no stored row's `open_time` lies in the inclusive range
`[from_time, to_time]`; a reversed range (`from_time > to_time`) always
fails this way; and on failure no percentile result is produced. -/
theorem empty_range_error (tbl : Store) (fromT toT : String) (w : Nat) :
    (calculate_target_percentiles tbl fromT toT w = .error .emptyRange ↔
      ∀ c ∈ tbl, ¬(fromT ≤ c.open_time ∧ c.open_time ≤ toT)) ∧
    (fromT > toT →
      calculate_target_percentiles tbl fromT toT w = .error .emptyRange) ∧
    (∀ r, calculate_target_percentiles tbl fromT toT w = .error .emptyRange →
      calculate_target_percentiles tbl fromT toT w ≠ .ok r) := by
  have hiff := (calc_error_iff_empty tbl fromT toT w).trans
    (selectRange_empty_iff tbl fromT toT)
  refine ⟨hiff, fun hgt => ?_, fun r he hok => ?_⟩
  · exact hiff.2 (fun c _ hand => absurd (le_trans hand.1 hand.2) (not_le.2 hgt))
  · rw [he] at hok
    cases hok

/-- C6 witness: an empty store fails, and a reversed range over a
populated store fails. -/
theorem empty_range_error_witness :
    calculate_target_percentiles [] "2024-01-01 00:00" "2024-01-01 00:01" 240 =
      .error .emptyRange ∧
    calculate_target_percentiles
        [⟨0, "2024-01-01 00:00", none, none, none, some 1, none⟩]
        "2024-01-01 00:01" "2024-01-01 00:00" 240 =
      .error .emptyRange := by
  constructor
  · exact (empty_range_error [] _ _ 240).1.2 (by simp)
  · refine (empty_range_error _ _ _ 240).2.1 ?_
    show ("2024-01-01 00:00" : String) < "2024-01-01 00:01"
    rw [String.lt_iff_toList_lt]
    decide

/-! ## The rolling maximum -/

theorem maxOfSome_map_some : ∀ (xs : List ℚ), xs ≠ [] →
    ∃ m, maxOfSome (xs.map some) = some m ∧ m ∈ xs ∧ ∀ x ∈ xs, x ≤ m
  | [], h => absurd rfl h
  | [x], _ => ⟨x, rfl, List.mem_singleton_self x, by simp⟩
  | x :: y :: rest, _ => by
    obtain ⟨m, hm, hmem, hub⟩ := maxOfSome_map_some (y :: rest) (by simp)
    refine ⟨max x m, ?_, ?_, ?_⟩
    · show maxOfSome (some x :: (y :: rest).map some) = _
      simp only [maxOfSome, List.foldr_cons] at hm ⊢
      rw [hm]
    · rcases max_choice x m with h | h
      · rw [h]
        exact List.mem_cons_self x _
      · rw [h]
        exact List.mem_cons_of_mem x hmem
    · intro z hz
      rcases List.mem_cons.1 hz with h | h
      · exact h ▸ le_max_left x m
      · exact le_trans (hub z h) (le_max_right x m)

theorem mem_slice_iff (l : List ℚ) (w i : Nat) (hi : i < l.length) (x : ℚ) :
    x ∈ (l.take (i + 1)).drop (i + 1 - w) ↔
      ∃ j, i + 1 - w ≤ j ∧ j ≤ i ∧ l.get? j = some x := by
  rw [List.mem_iff_get?]
  constructor
  · rintro ⟨k, hk⟩
    rw [List.get?_drop] at hk
    by_cases hcase : i + 1 - w + k < i + 1
    · rw [List.get?_take hcase] at hk
      exact ⟨i + 1 - w + k, Nat.le_add_right _ _, by omega, hk⟩
    · rw [List.get?_take_eq_none (by omega)] at hk
      cases hk
  · rintro ⟨j, hj1, hj2, hj⟩
    refine ⟨j - (i + 1 - w), ?_⟩
    rw [List.get?_drop]
    have hjeq : i + 1 - w + (j - (i + 1 - w)) = j := by omega
    rw [hjeq, List.get?_take (by omega)]
    exact hj

theorem rollingMax_get? (w : Nat) (l : List (Option ℚ)) (i : Nat)
    (hi : i < l.length) :
    (rollingMax w l).get? i =
      some (maxOfSome ((l.take (i + 1)).drop (i + 1 - w))) := by
  rw [rollingMax, List.get?_map, List.get?_range hi]
  rfl

theorem zipWith_get?_eq (f : Option ℚ → Option ℚ → PVal) :
    ∀ (as bs : List (Option ℚ)) (i : Nat),
      (List.zipWith f as bs).get? i =
        match as.get? i, bs.get? i with
        | some a, some b => some (f a b)
        | _, _ => none
  | [], _, _ => by simp
  | _ :: _, [], _ => by simp
  | a :: as, b :: bs, 0 => rfl
  | a :: as, b :: bs, i + 1 => by
    simpa using zipWith_get?_eq f as bs i

/-- C7: for a range of close values `l` and a positive window `w`, the
rolling maximum at row `i` is the maximum of `close[j]` for
`j ∈ [i+1-w, i]` (the trailing window, clipped at the start of the range),
and the ratio at `i` is that maximum divided by `close[i]`. -/
theorem rolling_max_window (l : List ℚ) (w i : Nat) (hw : 0 < w)
    (hi : i < l.length) :
    ∃ m, (rollingMax w (l.map some)).get? i = some (some m) ∧
      (∃ j, i + 1 - w ≤ j ∧ j ≤ i ∧ l.get? j = some m) ∧
      (∀ j x, i + 1 - w ≤ j → j ≤ i → l.get? j = some x → x ≤ m) ∧
      ∀ c, l.get? i = some c →
        (ratioList w (l.map some)).get? i = some (vdiv (some m) (some c)) ∧
        (c ≠ 0 → (ratioList w (l.map some)).get? i = some (.fin (m / c))) := by
  have hi' : i < (l.map some).length := by simpa using hi
  have hslice : ((l.map some).take (i + 1)).drop (i + 1 - w) =
      ((l.take (i + 1)).drop (i + 1 - w)).map some := by
    rw [List.map_drop, List.map_take]
  have hne : (l.take (i + 1)).drop (i + 1 - w) ≠ [] := by
    intro hcon
    have := congrArg List.length hcon
    simp only [List.length_drop, List.length_take, List.length_nil] at this
    omega
  obtain ⟨m, hm, hmem, hub⟩ := maxOfSome_map_some _ hne
  refine ⟨m, ?_, ?_, ?_, ?_⟩
  · rw [rollingMax_get? w _ i hi', hslice, hm]
  · exact (mem_slice_iff l w i hi m).1 hmem
  · intro j x hj1 hj2 hj
    exact hub x ((mem_slice_iff l w i hi x).2 ⟨j, hj1, hj2, hj⟩)
  · intro c hc
    have hrm : (rollingMax w (l.map some)).get? i = some (some m) := by
      rw [rollingMax_get? w _ i hi', hslice, hm]
    have hcl : (l.map some).get? i = some (some c) := by
      rw [List.get?_map, hc]
      rfl
    have hz : (ratioList w (l.map some)).get? i = some (vdiv (some m) (some c)) := by
      rw [ratioList, zipWith_get?_eq, hrm, hcl]
    refine ⟨hz, fun hc0 => ?_⟩
    rw [hz]
    simp [vdiv, hc0]

/-- C7 witness: close values `[3, 1]` with window 2 at row 1. -/
theorem rolling_max_window_witness :
    0 < 2 ∧ 1 < ([(3 : ℚ), 1]).length ∧
    (∃ m, (rollingMax 2 ([(3 : ℚ), 1].map some)).get? 1 = some (some m) ∧
      (∃ j, 1 + 1 - 2 ≤ j ∧ j ≤ 1 ∧ [(3 : ℚ), 1].get? j = some m) ∧
      (∀ j x, 1 + 1 - 2 ≤ j → j ≤ 1 → [(3 : ℚ), 1].get? j = some x → x ≤ m) ∧
      ∀ c, [(3 : ℚ), 1].get? 1 = some c →
        (ratioList 2 ([(3 : ℚ), 1].map some)).get? 1 =
          some (vdiv (some m) (some c)) ∧
        (c ≠ 0 → (ratioList 2 ([(3 : ℚ), 1].map some)).get? 1 =
          some (.fin (m / c)))) :=
  ⟨by decide, by decide, rolling_max_window [3, 1] 2 1 (by decide) (by decide)⟩

/-! ## The spec's percentile worked example -/

/-- Five stored candles with close prices 10, 12, 11, 15, 9 on consecutive
minutes. -/
def exampleTable : Store :=
  [⟨0, "2024-01-01 00:00", none, none, none, some 10, none⟩,
   ⟨60000, "2024-01-01 00:01", none, none, none, some 12, none⟩,
   ⟨120000, "2024-01-01 00:02", none, none, none, some 11, none⟩,
   ⟨180000, "2024-01-01 00:03", none, none, none, some 15, none⟩,
   ⟨240000, "2024-01-01 00:04", none, none, none, some 9, none⟩]

theorem example_ratio_eval :
    ratioList 3 [some 10, some 12, some 11, some 15, some 9] =
      [.fin 1, .fin 1, .fin (12/11), .fin 1, .fin (5/3)] := by
  have h : ratioList 3 [some 10, some 12, some 11, some 15, some 9] =
      [.fin (10/10), .fin (12/12), .fin (12/11), .fin (15/15), .fin (15/9)] := rfl
  rw [h]
  norm_num

theorem example_percentiles_eval :
    calculate_target_percentiles exampleTable
        "2024-01-01 00:00" "2024-01-01 00:04" 3 =
      .ok { p50 := .fin 1, p75 := .fin (12/11), p90 := .fin (79/55) } := by
  have hsort :
      sortVals (dropNan [.fin 1, .fin 1, .fin (12/11), .fin 1, .fin (5/3)]) =
        [.fin 1, .fin 1, .fin 1, .fin (12/11), .fin (5/3)] := by
    norm_num [dropNan, PVal.isNan, sortVals, insertSorted, PVal.ble]
  have h50 : quantileSorted [.fin 1, .fin 1, .fin 1, .fin (12/11), .fin (5/3)]
      (1/2) = .fin 1 := by
    norm_num [quantileSorted, interp, PVal.add, PVal.sub, PVal.smul,
      Int.toNat, List.getD]
  have h75 : quantileSorted [.fin 1, .fin 1, .fin 1, .fin (12/11), .fin (5/3)]
      (3/4) = .fin (12/11) := by
    norm_num [quantileSorted, interp, PVal.add, PVal.sub, PVal.smul,
      Int.toNat, List.getD]
  have h90 : quantileSorted [.fin 1, .fin 1, .fin 1, .fin (12/11), .fin (5/3)]
      (9/10) = .fin (79/55) := by
    norm_num [quantileSorted, interp, PVal.add, PVal.sub, PVal.smul,
      Int.toNat, List.getD]
  show Except.ok
      ({ p50 := percentileOf
           (ratioList 3 [some 10, some 12, some 11, some 15, some 9]) (1/2)
         p75 := percentileOf
           (ratioList 3 [some 10, some 12, some 11, some 15, some 9]) (3/4)
         p90 := percentileOf
           (ratioList 3 [some 10, some 12, some 11, some 15, some 9]) (9/10) } : PRow) =
    Except.ok ({ p50 := .fin 1, p75 := .fin (12/11), p90 := .fin (79/55) } : PRow)
  rw [percentileOf, percentileOf, percentileOf, example_ratio_eval, hsort,
    h50, h75, h90]

/-- C8 counterexample: on close prices `[10, 12, 11, 15, 9]` with window 3
the code reports p50 = 1 (the median of the sorted ratio multiset
`{1, 1, 1, 12/11, 5/3}`), not the claimed 1.0909… = 12/11. -/
theorem percentile_p50_claim_counterexample :
    calculate_target_percentiles exampleTable
        "2024-01-01 00:00" "2024-01-01 00:04" 3 =
      .ok { p50 := .fin 1, p75 := .fin (12/11), p90 := .fin (79/55) } ∧
    PVal.fin 1 ≠ PVal.fin (12/11) := by
  refine ⟨example_percentiles_eval, fun h => ?_⟩
  rw [PVal.fin.injEq] at h
  norm_num at h

/-- C8 amended: the rolling maxima and ratios are as the spec's example
states, but the reported p50 is 1.0 (the median of the sorted ratios);
p75 = 12/11 ≈ 1.0909 and p90 = 79/55 ≈ 1.4364 under linear
interpolation. -/
theorem percentile_example_amended :
    rollingMax 3 [some 10, some 12, some 11, some 15, some 9] =
      [some 10, some 12, some 12, some 15, some 15] ∧
    ratioList 3 [some 10, some 12, some 11, some 15, some 9] =
      [.fin 1, .fin 1, .fin (12/11), .fin 1, .fin (5/3)] ∧
    calculate_target_percentiles exampleTable
        "2024-01-01 00:00" "2024-01-01 00:04" 3 =
      .ok { p50 := .fin 1, p75 := .fin (12/11), p90 := .fin (79/55) } :=
  ⟨rfl, example_ratio_eval, example_percentiles_eval⟩

/-! ## Row ordering of the range query -/

/-- C9 counterexample: the SELECT has no ORDER BY — it returns rows in the
table's physical order, so a store whose rows sit out of order comes back
out of ascending `open_time` order: the ordering is not guaranteed by the
store query itself. -/
theorem select_order_counterexample :
    (selectRange
        [⟨60000, "2024-01-01 00:01", none, none, none, some 2, none⟩,
         ⟨0, "2024-01-01 00:00", none, none, none, some 1, none⟩]
        "2024-01-01 00:00" "2024-01-01 00:01").map Prod.fst =
      ["2024-01-01 00:01", "2024-01-01 00:00"] ∧
    ¬ List.Sorted (· ≤ ·)
      ((selectRange
        [⟨60000, "2024-01-01 00:01", none, none, none, some 2, none⟩,
         ⟨0, "2024-01-01 00:00", none, none, none, some 1, none⟩]
        "2024-01-01 00:00" "2024-01-01 00:01").map Prod.fst) := by
  refine ⟨rfl, fun h => ?_⟩
  have hle : ("2024-01-01 00:01" : String) ≤ "2024-01-01 00:00" := by
    have h' : List.Sorted (· ≤ ·)
        ["2024-01-01 00:01", "2024-01-01 00:00"] := h
    exact (List.pairwise_cons.1 h').1 _ (List.mem_singleton_self _)
  have : strLeB "2024-01-01 00:01" "2024-01-01 00:00" = true :=
    (strLeB_iff_le _ _).2 hle
  exact absurd this (by decide)

/-- C9 amended: `selectRange` preserves the store's physical row order (its
time column is a sublist of the store's time column), so the rolling
computation sees rows ascending by `open_time` exactly when the stored
table itself is ascending — which the append-only sync maintains — and not
because the query orders them. -/
theorem select_order_amended (tbl : Store) (fromT toT : String)
    (h : List.Sorted (· ≤ ·) (tbl.map Candle.open_time)) :
    ((selectRange tbl fromT toT).map Prod.fst).Sublist
      (tbl.map Candle.open_time) ∧
    List.Sorted (· ≤ ·) ((selectRange tbl fromT toT).map Prod.fst) := by
  have heq : (selectRange tbl fromT toT).map Prod.fst =
      (tbl.filter
        (fun c => strLeB fromT c.open_time && strLeB c.open_time toT)).map
        Candle.open_time := by
    simp [selectRange]
  rw [heq]
  constructor
  · exact (List.filter_sublist tbl).map Candle.open_time
  · exact h.sublist ((List.filter_sublist tbl).map Candle.open_time)

/-- C9 witness: a physically ascending two-row store comes back ascending. -/
theorem select_order_amended_witness :
    ((selectRange
        [⟨0, "2024-01-01 00:00", none, none, none, some 1, none⟩,
         ⟨60000, "2024-01-01 00:01", none, none, none, some 2, none⟩]
        "2024-01-01 00:00" "2024-01-01 00:01").map Prod.fst).Sublist
      (["2024-01-01 00:00", "2024-01-01 00:01"]) ∧
    List.Sorted (· ≤ ·)
      ((selectRange
        [⟨0, "2024-01-01 00:00", none, none, none, some 1, none⟩,
         ⟨60000, "2024-01-01 00:01", none, none, none, some 2, none⟩]
        "2024-01-01 00:00" "2024-01-01 00:01").map Prod.fst) := by
  exact select_order_amended _ "2024-01-01 00:00" "2024-01-01 00:01"
    (by simp [List.sorted_cons]; decide)

/-! ## NULL and zero close values in the ratio column -/

theorem rollingMax_length (w : Nat) (l : List (Option ℚ)) :
    (rollingMax w l).length = l.length := by
  simp [rollingMax]

theorem ratioList_get?_eq (w : Nat) (closes : List (Option ℚ)) (i : Nat)
    (hi : i < closes.length) (c : Option ℚ) (hc : closes.get? i = some c) :
    (ratioList w closes).get? i =
      some (vdiv (maxOfSome ((closes.take (i + 1)).drop (i + 1 - w))) c) := by
  rw [ratioList, zipWith_get?_eq, rollingMax_get? w closes i hi, hc]

/-- C10: on a non-empty range the calculation succeeds (never errors on
null or zero closes); a row with a NULL close gets ratio NaN, and NaN is
never in the NaN-dropped percentile input; a row whose close is zero under
a positive rolling maximum gets ratio +inf, which is kept in the
percentile input. -/
theorem null_and_zero_close (tbl : Store) (fromT toT : String) (w : Nat)
    (hne : selectRange tbl fromT toT ≠ []) :
    (∃ r, calculate_target_percentiles tbl fromT toT w = .ok r) ∧
    (∀ i, ((selectRange tbl fromT toT).map Prod.snd).get? i = some none →
      (ratioList w ((selectRange tbl fromT toT).map Prod.snd)).get? i =
        some .nan) ∧
    PVal.nan ∉ dropNan (ratioList w ((selectRange tbl fromT toT).map Prod.snd)) ∧
    (∀ i m,
      ((selectRange tbl fromT toT).map Prod.snd).get? i = some (some 0) →
      (rollingMax w ((selectRange tbl fromT toT).map Prod.snd)).get? i =
        some (some m) →
      0 < m →
      (ratioList w ((selectRange tbl fromT toT).map Prod.snd)).get? i =
        some .posInf ∧
      PVal.posInf ∈
        dropNan (ratioList w ((selectRange tbl fromT toT).map Prod.snd))) := by
  refine ⟨?_, ?_, ?_, ?_⟩
  · have hfalse : (selectRange tbl fromT toT).isEmpty = false := by
      rcases hsel : selectRange tbl fromT toT with _ | ⟨p, ps⟩
      · exact absurd hsel hne
      · rfl
    simp only [calculate_target_percentiles, hfalse, Bool.false_eq_true,
      if_false]
    exact ⟨_, rfl⟩
  · intro i hi
    have hlen : i < ((selectRange tbl fromT toT).map Prod.snd).length :=
      List.get?_eq_some.1 hi |>.1
    rw [ratioList_get?_eq w _ i hlen none hi]
    rcases hmc : maxOfSome
        ((((selectRange tbl fromT toT).map Prod.snd).take (i + 1)).drop
          (i + 1 - w)) with _ | q
    · rfl
    · rfl
  · intro hmem
    have := (List.mem_filter.1 hmem).2
    simp [PVal.isNan] at this
  · intro i m hc hrm hm
    have hlen : i < ((selectRange tbl fromT toT).map Prod.snd).length :=
      List.get?_eq_some.1 hc |>.1
    have hmax : maxOfSome
        ((((selectRange tbl fromT toT).map Prod.snd).take (i + 1)).drop
          (i + 1 - w)) = some m := by
      have := rollingMax_get? w ((selectRange tbl fromT toT).map Prod.snd) i hlen
      rw [this] at hrm
      exact Option.some_injective _ hrm
    have hrat : (ratioList w ((selectRange tbl fromT toT).map Prod.snd)).get? i =
        some .posInf := by
      rw [ratioList_get?_eq w _ i hlen _ hc, hmax]
      simp [vdiv, hm]
    refine ⟨hrat, ?_⟩
    refine List.mem_filter.2 ⟨List.get?_mem hrat, rfl⟩

/-- C10 witness: closes `[5, NULL, 0]` with window 3 — the NULL row's
ratio is NaN and dropped, the zero row's ratio is +inf and kept, and the
calculation still succeeds. -/
theorem null_and_zero_close_witness :
    (selectRange
        [⟨0, "2024-01-01 00:00", none, none, none, some 5, none⟩,
         ⟨60000, "2024-01-01 00:01", none, none, none, none, none⟩,
         ⟨120000, "2024-01-01 00:02", none, none, none, some 0, none⟩]
        "2024-01-01 00:00" "2024-01-01 00:02") ≠ [] ∧
    (∃ r, calculate_target_percentiles
        [⟨0, "2024-01-01 00:00", none, none, none, some 5, none⟩,
         ⟨60000, "2024-01-01 00:01", none, none, none, none, none⟩,
         ⟨120000, "2024-01-01 00:02", none, none, none, some 0, none⟩]
        "2024-01-01 00:00" "2024-01-01 00:02" 3 = .ok r) ∧
    (ratioList 3 ((selectRange
        [⟨0, "2024-01-01 00:00", none, none, none, some 5, none⟩,
         ⟨60000, "2024-01-01 00:01", none, none, none, none, none⟩,
         ⟨120000, "2024-01-01 00:02", none, none, none, some 0, none⟩]
        "2024-01-01 00:00" "2024-01-01 00:02").map Prod.snd)).get? 1 =
      some .nan ∧
    (ratioList 3 ((selectRange
        [⟨0, "2024-01-01 00:00", none, none, none, some 5, none⟩,
         ⟨60000, "2024-01-01 00:01", none, none, none, none, none⟩,
         ⟨120000, "2024-01-01 00:02", none, none, none, some 0, none⟩]
        "2024-01-01 00:00" "2024-01-01 00:02").map Prod.snd)).get? 2 =
      some .posInf ∧
    PVal.posInf ∈ dropNan (ratioList 3 ((selectRange
        [⟨0, "2024-01-01 00:00", none, none, none, some 5, none⟩,
         ⟨60000, "2024-01-01 00:01", none, none, none, none, none⟩,
         ⟨120000, "2024-01-01 00:02", none, none, none, some 0, none⟩]
        "2024-01-01 00:00" "2024-01-01 00:02").map Prod.snd)) := by
  obtain ⟨h1, h2, _, h4⟩ := null_and_zero_close
    [⟨0, "2024-01-01 00:00", none, none, none, some 5, none⟩,
     ⟨60000, "2024-01-01 00:01", none, none, none, none, none⟩,
     ⟨120000, "2024-01-01 00:02", none, none, none, some 0, none⟩]
    "2024-01-01 00:00" "2024-01-01 00:02" 3 (by decide)
  obtain ⟨h5, h6⟩ := h4 2 5 (by decide) (by decide) (by decide)
  exact ⟨by decide, h1, h2 1 (by decide), h5, h6⟩

end ChronoQuant
